import Mathlib

/-!
Verification of `horovod/common/gradient_aggregation_eager.py`
(`LocalGradientAggregationHelperEager`).

Shallow embedding notes.

* Tensors are modelled element-wise by a single rational number `ℚ`: every
  tensor operation the helper performs (`zeros_like`, `assign_add`,
  `grad / divisor`, `assign_add(-1 * buf)`) acts independently on each
  element, so one representative element captures the algebra exactly.

* A gradient entry handed to `compute_gradients` is `Option Grad`:
  `none` models a Python `None` (absent gradient), `some (Grad.dense v)` a
  dense tensor, `some (Grad.sparse v)` a `tf.IndexedSlices` value.

* `self.shadow_var` is a Python dict from the slot index to a `tf.Variable`;
  Python dicts iterate in insertion order, so it is modelled as an
  association list `List (ℕ × ℚ)` in insertion order.

* `compute_gradients` is decorated with `@tf.function`: tensor-level
  operations (`assign_add` on buffers and on `self.counter`, the boundary
  conditional, the allreduce, `_clear_vars`) execute on every call, while
  Python-level statements execute once per traced input signature.  In
  particular `self.num_none_grad_updates += 1` runs once per signature for
  each slot that is absent and unbuffered, not once per call.  The model
  therefore records the set of slots already classified as "no gradient"
  (`none_slots`, whose length is `num_none_grad_updates`) and increments the
  count only when a slot is first classified, which reproduces the traced
  behaviour for runs with a fixed gradient-presence pattern.

* Python exceptions (`raise AssertionError`, failed `assert`, `IndexError`
  from an out-of-range list index) are modelled with `Except AggError`.
-/

/-- Error outcomes of a `compute_gradients` call, matching the Python
exceptions the source can raise. -/
inductive AggError where
  /-- The `raise AssertionError("IndexedSlices are not supported ...")`
  for a `tf.IndexedSlices` gradient. -/
  | unsupportedSparse
  /-- The failed
  `assert len(self.shadow_var) + self.num_none_grad_updates == len(grads)`. -/
  | invariantViolated
  /-- A failed length assertion around the allreduce/reconstruction step. -/
  | reconstructionMismatch
  /-- The Python `IndexError` raised by `resulting_grads[idx]` when `idx` is
  out of range for the reduced-gradients list. -/
  | indexError
deriving Repr, DecidableEq

/-- A non-absent gradient value: either a dense tensor or a
`tf.IndexedSlices` (sparse) value. -/
inductive Grad where
  | dense (v : ℚ)
  | sparse (v : ℚ)
deriving Repr, DecidableEq

/-- Construction-time configuration of `LocalGradientAggregationHelperEager`
(`__init__`): the aggregation frequency (asserted positive in `__init__`),
the external allreduce collaborator `allreduce_func`, the stored
`sparse_as_dense` flag (stored at `__init__` line 34 and never consulted on
the `compute_gradients` path), and `average_aggregated_gradients`.  The
allreduce receives the list of dense buffer values and may return dense,
sparse or `None` entries. -/
structure Helper where
  aggregation_frequency : ℕ
  allreduce_func : List ℚ → List (Option Grad)
  sparse_as_dense : Bool
  average_aggregated_gradients : Bool

/-- Mutable state of the helper: `shadow_var` (dict slot-index → buffer, in
insertion order), the slots already classified as "no gradient" (whose
length is `num_none_grad_updates`, see the module comment on `@tf.function`
tracing), and `counter`. -/
structure AggState where
  shadow_var : List (ℕ × ℚ)
  none_slots : List ℕ
  counter : ℕ
deriving Repr, DecidableEq

/-- Initial state set up by `__init__`: no shadow variables, no `None`
gradients seen, `counter = 0`. -/
def initState : AggState := ⟨[], [], 0⟩

/-- `idx in self.shadow_var.keys()`. -/
def hasSlot (sv : List (ℕ × ℚ)) (idx : ℕ) : Bool :=
  sv.any (fun p => p.1 == idx)

/-- Reading `self.shadow_var[idx]`: the value of the first (only) entry
with key `idx`. -/
def lookupSlot : List (ℕ × ℚ) → ℕ → Option ℚ
  | [], _ => none
  | p :: rest, idx => if p.1 = idx then some p.2 else lookupSlot rest idx

/-- `self.shadow_var[idx].assign_add(v)`. -/
def addToSlot (sv : List (ℕ × ℚ)) (idx : ℕ) (v : ℚ) : List (ℕ × ℚ) :=
  sv.map (fun p => if p.1 = idx then (p.1, p.2 + v) else p)

/-- One iteration of the `for idx, grad in enumerate(grads)` loop of
`compute_gradients`, threading the state and the local `resulting_grads`
list:

* `isinstance(grad, tf.IndexedSlices)` raises unconditionally;
* an unbuffered slot is either allocated a zero buffer (present gradient)
  or classified as a `None` slot (absent gradient, `continue`);
* a present gradient is added into the buffer and the buffer's new value
  appended to `resulting_grads`. -/
def stepSlot (s : AggState) (res : List ℚ) (idx : ℕ) (grad : Option Grad) :
    Except AggError (AggState × List ℚ) :=
  match grad with
  | some (Grad.sparse _) => .error .unsupportedSparse
  | none =>
      if hasSlot s.shadow_var idx then .ok (s, res)
      else if s.none_slots.contains idx then .ok (s, res)
      else .ok ({ s with none_slots := s.none_slots ++ [idx] }, res)
  | some (Grad.dense v) =>
      let sv0 := if hasSlot s.shadow_var idx then s.shadow_var
                 else s.shadow_var ++ [(idx, 0)]
      let sv1 := addToSlot sv0 idx v
      .ok ({ s with shadow_var := sv1 }, res ++ [(lookupSlot sv1 idx).getD 0])

/-- The whole `for idx, grad in enumerate(grads)` loop, starting at index
`idx`. -/
def loopFrom (s : AggState) (res : List ℚ) (idx : ℕ) :
    List (Option Grad) → Except AggError (AggState × List ℚ)
  | [] => .ok (s, res)
  | g :: rest =>
      match stepSlot s res idx g with
      | .error e => .error e
      | .ok (s1, res1) => loopFrom s1 res1 (idx + 1) rest

/-- The gradient-processing loop of `compute_gradients` over the whole input
list. -/
def accumulateLoop (s : AggState) (grads : List (Option Grad)) :
    Except AggError (AggState × List ℚ) :=
  loopFrom s [] 0 grads

/-- `_allreduce_helper`: call the external allreduce, then if
`aggregation_frequency > 1` divide every dense result by
`aggregation_frequency` (when `average_aggregated_gradients`) or by `1`,
passing `None` and sparse entries through unchanged; if the frequency is
`1`, return the allreduced values unscaled. -/
def allreduce_helper (h : Helper) (grads : List ℚ) : List (Option Grad) :=
  let allreduced := h.allreduce_func grads
  if 1 < h.aggregation_frequency then
    let gradient_divisor : ℚ :=
      if h.average_aggregated_gradients then (h.aggregation_frequency : ℚ) else 1
    allreduced.map (fun g =>
      match g with
      | none => none
      | some (Grad.sparse v) => some (Grad.sparse v)
      | some (Grad.dense v) => some (Grad.dense (v / gradient_divisor)))
  else
    allreduced

/-- `_clear_vars`: reset `counter` to `0` and do
`shadow_var[idx].assign_add(-1 * shadow_var[idx])` on every buffer. -/
def clear_vars (s : AggState) : AggState :=
  { s with counter := 0,
           shadow_var := s.shadow_var.map (fun p => (p.1, p.2 + (-1) * p.2)) }

/-- The list comprehension
`[resulting_grads[idx] if idx in self.shadow_var else None
  for idx in range(len(resulting_grads) + self.num_none_grad_updates)]`,
processing indices `start, start+1, ...` for `count` steps.  An index that
is in `shadow_var` but out of range for `reduced` raises the Python
`IndexError`. -/
def reconstructFrom (reduced : List (Option Grad)) (sv : List (ℕ × ℚ)) :
    ℕ → ℕ → Except AggError (List (Option Grad))
  | _, 0 => .ok []
  | start, count + 1 =>
      let hd : Except AggError (Option Grad) :=
        if hasSlot sv start then
          match reduced[start]? with
          | some v => .ok v
          | none => .error .indexError
        else .ok none
      match hd with
      | .error e => .error e
      | .ok v =>
          match reconstructFrom reduced sv (start + 1) count with
          | .error e => .error e
          | .ok rest => .ok (v :: rest)

/-- The full reconstruction comprehension over
`range(len(resulting_grads) + self.num_none_grad_updates)`. -/
def reconstruct (reduced : List (Option Grad)) (sv : List (ℕ × ℚ))
    (numNone : ℕ) : Except AggError (List (Option Grad)) :=
  reconstructFrom reduced sv 0 (reduced.length + numNone)

/-- `compute_gradients(self, grads)`.  Returns
`(syncOccurred, resulting_grads, new state)` where `syncOccurred` records
whether the boundary conditional `tf.equal(self.counter,
self.aggregation_frequency)` fired (equivalently, whether the returned
state has `counter = 0`, which is what `apply_gradients` tests).

Source order: run the accumulation loop; check
`assert len(self.shadow_var) + self.num_none_grad_updates == len(grads)`;
`self.counter.assign_add(1)`; on the boundary, allreduce and scale, check
`assert len(resulting_grads) == len(self.shadow_var)`, rebuild the
length-`P` list (possibly raising `IndexError`), check the final length
assertion, `_clear_vars()`; otherwise return the accumulated values
unscaled and unpadded. -/
def compute_gradients (h : Helper) (s : AggState) (grads : List (Option Grad)) :
    Except AggError (Bool × List (Option Grad) × AggState) :=
  match accumulateLoop s grads with
  | .error e => .error e
  | .ok (s1, resulting) =>
      if s1.shadow_var.length + s1.none_slots.length ≠ grads.length then
        .error .invariantViolated
      else
        let s2 : AggState := { s1 with counter := s1.counter + 1 }
        if s2.counter = h.aggregation_frequency then
          let reduced := allreduce_helper h resulting
          if reduced.length ≠ s2.shadow_var.length then
            .error .reconstructionMismatch
          else
            match reconstruct reduced s2.shadow_var s2.none_slots.length with
            | .error e => .error e
            | .ok out =>
                if out.length ≠ s2.shadow_var.length + s2.none_slots.length then
                  .error .reconstructionMismatch
                else
                  .ok (true, out, clear_vars s2)
        else
          .ok (false, resulting.map (fun v => some (Grad.dense v)), s2)

/-- `tf.cond(pred, true_fn, false_fn)`: evaluate exactly one of the two
branch closures and return its result. -/
def tf_cond {α : Type} (pred : Bool) (true_fn false_fn : Unit → α) : α :=
  if pred then true_fn () else false_fn ()

/-- `apply_gradients(self, apply_grads_closure, optimizer, *args, **kwargs)`.
Both generations of the TensorFlow code path build a
`tf.cond(pred=tf.equal(self.counter, 0), ...)`: before TF 2.4.0 the true
branch is `apply_grads_closure` itself and the false branch the
`increment_optimizer_iteration` closure; from TF 2.4.0 on the true branch is
`aggregation_step` (the externally pre-aggregated optimizer update, an
external-collaborator detail folded into the apply closure) and the false
branch `non_aggregation_step`, which just calls
`increment_optimizer_iteration`. -/
def apply_gradients {α : Type} (counter : ℕ) (preTF240 : Bool)
    (apply_grads_closure increment_optimizer_iteration : Unit → α) : α :=
  if preTF240 then
    tf_cond (counter == 0) apply_grads_closure increment_optimizer_iteration
  else
    let aggregation_step : Unit → α := fun _ => apply_grads_closure ()
    let non_aggregation_step : Unit → α := fun _ =>
      increment_optimizer_iteration ()
    tf_cond (counter == 0) aggregation_step non_aggregation_step

/-- Driver for a run: feed a list of per-call gradient lists through
`compute_gradients`, collecting each call's `(syncOccurred, output)` pair
and the final state. -/
def runCalls (h : Helper) (s : AggState) :
    List (List (Option Grad)) →
      Except AggError (List (Bool × List (Option Grad)) × AggState)
  | [] => .ok ([], s)
  | gs :: rest =>
      match compute_gradients h s gs with
      | .error e => .error e
      | .ok (sync, out, s1) =>
          match runCalls h s1 rest with
          | .error e => .error e
          | .ok (results, sF) => .ok ((sync, out) :: results, sF)

/-! ### Canonical shapes for fixed-pattern runs -/

/-- A fixed gradient-presence pattern whose present slots are the positions
`0, …, m-1` and whose absent slots are the positions `m, …, P-1`; `g i` is
the dense gradient supplied for present slot `i`. -/
def patInput (m P : ℕ) (g : ℕ → ℚ) : List (Option Grad) :=
  (List.range P).map (fun i => if i < m then some (Grad.dense (g i)) else none)

/-- Canonical reachable state for runs with pattern `patInput m P _`:
buffers for slots `0, …, m-1` holding `B i`, slots `m, …, P-1` classified as
"no gradient", and the given counter value. -/
def canonState (m P : ℕ) (B : ℕ → ℚ) (c : ℕ) : AggState :=
  ⟨(List.range m).map (fun i => (i, B i)), List.range' m (P - m), c⟩

/-- Buffer values midway through the processing loop: slots below `j` have
already absorbed this call's gradient. -/
def upVals (B g : ℕ → ℚ) (j : ℕ) : ℕ → ℚ :=
  fun i => if i < j then B i + g i else B i

/-- The effective divisor `_allreduce_helper` applies to dense reduced
values. -/
def effDivisor (f : ℕ) (avg : Bool) : ℚ :=
  if 1 < f then (if avg then (f : ℚ) else 1) else 1

/-! ### Association-list lemmas on range-shaped shadow variables -/

lemma hasSlot_rangeMap_lt (F : ℕ → ℚ) (m j : ℕ) (h : j < m) :
    hasSlot ((List.range m).map (fun i => (i, F i))) j = true := by
  rw [hasSlot, List.any_eq_true]
  exact ⟨(j, F j), List.mem_map_of_mem _ (List.mem_range.mpr h), by simp⟩

lemma hasSlot_rangeMap_ge (F : ℕ → ℚ) (m j : ℕ) (h : m ≤ j) :
    hasSlot ((List.range m).map (fun i => (i, F i))) j = false := by
  rw [hasSlot, List.any_eq_false]
  intro p hp
  simp only [List.mem_map, List.mem_range] at hp
  obtain ⟨i, hi, rfl⟩ := hp
  simp only [beq_iff_eq]
  omega

lemma lookupSlot_range'Map (F : ℕ → ℚ) :
    ∀ (k a j : ℕ), a ≤ j → j < a + k →
      lookupSlot ((List.range' a k).map (fun i => (i, F i))) j = some (F j) := by
  intro k
  induction k with
  | zero => intro a j h1 h2; omega
  | succ n ih =>
      intro a j h1 h2
      rw [List.range'_succ, List.map_cons, lookupSlot]
      by_cases hj : a = j
      · subst hj
        rw [if_pos rfl]
      · rw [if_neg hj]
        exact ih (a + 1) j (by omega) (by omega)

lemma lookupSlot_rangeMap (F : ℕ → ℚ) (m j : ℕ) (h : j < m) :
    lookupSlot ((List.range m).map (fun i => (i, F i))) j = some (F j) := by
  rw [List.range_eq_range']
  exact lookupSlot_range'Map F m 0 j (Nat.zero_le j) (by omega)

lemma addToSlot_rangeMap (F : ℕ → ℚ) (m j : ℕ) (v : ℚ) :
    addToSlot ((List.range m).map (fun i => (i, F i))) j v =
      (List.range m).map (fun i => (i, if i = j then F i + v else F i)) := by
  rw [addToSlot, List.map_map]
  refine List.map_congr_left ?_
  intro i _
  by_cases h : i = j <;> simp [h]

lemma addToSlot_not_mem (sv : List (ℕ × ℚ)) (j : ℕ) (v : ℚ)
    (h : hasSlot sv j = false) : addToSlot sv j v = sv := by
  rw [addToSlot]
  have hall : ∀ p ∈ sv, (if p.1 = j then (p.1, p.2 + v) else p) = p := by
    intro p hp
    rw [if_neg]
    intro hq
    rw [hasSlot, List.any_eq_false] at h
    exact absurd (by simp [hq]) (h p hp)
  rw [List.map_congr_left hall]
  simp

/-! ### Single-step lemmas for the processing loop -/

lemma loopFrom_nil (s : AggState) (res : List ℚ) (j : ℕ) :
    loopFrom s res j [] = .ok (s, res) := rfl

lemma loopFrom_cons (s : AggState) (res : List ℚ) (j : ℕ) (g : Option Grad)
    (rest : List (Option Grad)) :
    loopFrom s res j (g :: rest) =
      match stepSlot s res j g with
      | .error e => .error e
      | .ok (s1, res1) => loopFrom s1 res1 (j + 1) rest := rfl

lemma stepSlot_present (W : ℕ → ℚ) (m : ℕ) (no : List ℕ) (c : ℕ)
    (res : List ℚ) (j : ℕ) (hj : j < m) (v : ℚ) :
    stepSlot ⟨(List.range m).map (fun i => (i, W i)), no, c⟩ res j
        (some (Grad.dense v)) =
      .ok (⟨(List.range m).map (fun i => (i, if i = j then W i + v else W i)),
            no, c⟩,
           res ++ [W j + v]) := by
  have h1 := hasSlot_rangeMap_lt W m j hj
  have h2 := addToSlot_rangeMap W m j v
  simp only [stepSlot, h1, if_true, h2]
  rw [lookupSlot_rangeMap _ m j hj]
  simp

lemma stepSlot_alloc (g : ℕ → ℚ) (no : List ℕ) (c : ℕ) (res : List ℚ)
    (j : ℕ) :
    stepSlot ⟨(List.range j).map (fun i => (i, g i)), no, c⟩ res j
        (some (Grad.dense (g j))) =
      .ok (⟨(List.range (j + 1)).map (fun i => (i, g i)), no, c⟩,
           res ++ [g j]) := by
  have h1 := hasSlot_rangeMap_ge g j j (le_refl j)
  have h2 : addToSlot ((List.range j).map (fun i => (i, g i)) ++ [(j, 0)]) j
      (g j) = (List.range (j + 1)).map (fun i => (i, g i)) := by
    rw [addToSlot, List.map_append,
        ← addToSlot, addToSlot_not_mem _ _ _ h1, List.range_succ, List.map_append]
    simp
  simp only [stepSlot, h1, Bool.false_eq_true, if_false, h2]
  rw [lookupSlot_rangeMap g (j + 1) j (by omega)]
  simp

lemma stepSlot_none_mem (s : AggState) (res : List ℚ) (j : ℕ)
    (h1 : hasSlot s.shadow_var j = false) (h2 : j ∈ s.none_slots) :
    stepSlot s res j none = .ok (s, res) := by
  have hc : s.none_slots.contains j = true := by
    simp [List.contains]; exact h2
  simp [stepSlot, h1, hc, h2]

lemma stepSlot_none_new (s : AggState) (res : List ℚ) (j : ℕ)
    (h1 : hasSlot s.shadow_var j = false) (h2 : j ∉ s.none_slots) :
    stepSlot s res j none =
      .ok ({ s with none_slots := s.none_slots ++ [j] }, res) := by
  have hc : s.none_slots.contains j = false := by
    simp [List.contains]; exact h2
  simp [stepSlot, h1, hc, h2]

/-! ### Segment lemmas for the processing loop -/

lemma loop_present (B g : ℕ → ℚ) (m : ℕ) (no : List ℕ) (c : ℕ) :
    ∀ (k j : ℕ) (res : List ℚ), j + k ≤ m →
      loopFrom ⟨(List.range m).map (fun i => (i, upVals B g j i)), no, c⟩ res j
          ((List.range' j k).map (fun i => some (Grad.dense (g i)))) =
        .ok (⟨(List.range m).map (fun i => (i, upVals B g (j + k) i)), no, c⟩,
             res ++ (List.range' j k).map (fun i => B i + g i)) := by
  intro k
  induction k with
  | zero =>
      intro j res _
      simp [loopFrom_nil]
  | succ n ih =>
      intro j res h
      rw [List.range'_succ]
      simp only [List.map_cons]
      rw [loopFrom_cons, stepSlot_present (upVals B g j) m no c res j (by omega) (g j)]
      dsimp only
      have hW : upVals B g j j = B j := by simp [upVals]
      have hshadow : (List.range m).map
          (fun i => (i, if i = j then upVals B g j i + g j else upVals B g j i)) =
          (List.range m).map (fun i => (i, upVals B g (j + 1) i)) := by
        refine List.map_congr_left ?_
        intro i _
        congr 1
        by_cases hij : i = j
        · subst hij
          simp [upVals]
        · have hiff : (i < j + 1) ↔ (i < j) := by omega
          simp [upVals, hij, hiff]
      rw [hW, hshadow, ih (j + 1) (res ++ [B j + g j]) (by omega)]
      have hadd : (j + 1) + n = j + (n + 1) := by omega
      rw [hadd, ← List.append_cons]

lemma loop_alloc (g : ℕ → ℚ) (no : List ℕ) (c : ℕ) :
    ∀ (k j : ℕ) (res : List ℚ),
      loopFrom ⟨(List.range j).map (fun i => (i, g i)), no, c⟩ res j
          ((List.range' j k).map (fun i => some (Grad.dense (g i)))) =
        .ok (⟨(List.range (j + k)).map (fun i => (i, g i)), no, c⟩,
             res ++ (List.range' j k).map g) := by
  intro k
  induction k with
  | zero =>
      intro j res
      simp [loopFrom_nil]
  | succ n ih =>
      intro j res
      rw [List.range'_succ]
      simp only [List.map_cons]
      rw [loopFrom_cons, stepSlot_alloc g no c res j]
      dsimp only
      rw [ih (j + 1) (res ++ [g j])]
      have hadd : (j + 1) + n = j + (n + 1) := by omega
      rw [hadd, ← List.append_cons]

lemma loop_absent_skip (sv : List (ℕ × ℚ)) (no : List ℕ) (c : ℕ) :
    ∀ (k j : ℕ) (res : List ℚ),
      (∀ i, j ≤ i → i < j + k → hasSlot sv i = false) →
      (∀ i, j ≤ i → i < j + k → i ∈ no) →
      loopFrom ⟨sv, no, c⟩ res j (List.replicate k none) =
        .ok (⟨sv, no, c⟩, res) := by
  intro k
  induction k with
  | zero => intro j res _ _; rfl
  | succ n ih =>
      intro j res h1 h2
      rw [List.replicate_succ, loopFrom_cons,
          stepSlot_none_mem ⟨sv, no, c⟩ res j (h1 j (le_refl j) (by omega))
            (h2 j (le_refl j) (by omega))]
      dsimp only
      exact ih (j + 1) res (fun i hi1 hi2 => h1 i (by omega) (by omega))
        (fun i hi1 hi2 => h2 i (by omega) (by omega))

lemma loop_absent_grow (sv : List (ℕ × ℚ)) (c : ℕ) :
    ∀ (k j : ℕ) (no : List ℕ) (res : List ℚ),
      (∀ i, j ≤ i → i < j + k → hasSlot sv i = false) →
      (∀ i, j ≤ i → i < j + k → i ∉ no) →
      loopFrom ⟨sv, no, c⟩ res j (List.replicate k none) =
        .ok (⟨sv, no ++ List.range' j k, c⟩, res) := by
  intro k
  induction k with
  | zero => intro j no res _ _; simp [loopFrom_nil]
  | succ n ih =>
      intro j no res h1 h2
      rw [List.replicate_succ, loopFrom_cons,
          stepSlot_none_new ⟨sv, no, c⟩ res j (h1 j (le_refl j) (by omega))
            (h2 j (le_refl j) (by omega))]
      dsimp only
      rw [ih (j + 1) (no ++ [j]) res
            (fun i hi1 hi2 => h1 i (by omega) (by omega))
            (fun i hi1 hi2 => by
              simp only [List.mem_append, List.mem_singleton]
              push_neg
              exact ⟨h2 i (by omega) (by omega), by omega⟩)]
      rw [List.append_assoc, List.singleton_append, ← List.range'_succ]

lemma loopFrom_append (l1 l2 : List (Option Grad)) :
    ∀ (s : AggState) (res : List ℚ) (j : ℕ),
      loopFrom s res j (l1 ++ l2) =
        match loopFrom s res j l1 with
        | .error e => .error e
        | .ok (s1, res1) => loopFrom s1 res1 (j + l1.length) l2 := by
  induction l1 with
  | nil =>
      intro s res j
      simp [loopFrom_nil]
  | cons g rest ih =>
      intro s res j
      rw [List.cons_append, loopFrom_cons, loopFrom_cons]
      cases hstep : stepSlot s res j g with
      | error e => rfl
      | ok p =>
          obtain ⟨s1, res1⟩ := p
          dsimp only
          rw [ih s1 res1 (j + 1)]
          have hadd : (j + 1) + rest.length = j + (rest.length + 1) := by omega
          rw [hadd]
          rfl

lemma patInput_eq (m P : ℕ) (g : ℕ → ℚ) (hm : m ≤ P) :
    patInput m P g =
      (List.range' 0 m).map (fun i => some (Grad.dense (g i))) ++
        List.replicate (P - m) none := by
  rw [patInput, List.range_eq_range']
  have hsplit : List.range' 0 m ++ List.range' m (P - m) = List.range' 0 P := by
    have h := List.range'_append 0 m (P - m) 1
    simp only [Nat.one_mul, Nat.zero_add] at h
    have h2 : P - m + m = P := by omega
    rw [h2] at h
    exact h
  rw [← hsplit, List.map_append]
  congr 1
  · refine List.map_congr_left ?_
    intro i hi
    have hlt : i < m := by
      have := List.mem_range'_1.mp hi
      omega
    simp [hlt]
  · have hnone : ∀ i ∈ List.range' m (P - m),
        (if i < m then some (Grad.dense (g i)) else none) = (none : Option Grad) := by
      intro i hi
      have := List.mem_range'_1.mp hi
      rw [if_neg]
      omega
    rw [List.map_congr_left hnone]
    simp

lemma loop_canon (m P : ℕ) (hm : m ≤ P) (B g : ℕ → ℚ) (c : ℕ) :
    accumulateLoop (canonState m P B c) (patInput m P g) =
      .ok (canonState m P (fun i => B i + g i) c,
           (List.range m).map (fun i => B i + g i)) := by
  rw [accumulateLoop, patInput_eq m P g hm, loopFrom_append]
  have hB : (List.range m).map (fun i => (i, B i)) =
      (List.range m).map (fun i => (i, upVals B g 0 i)) := by
    refine List.map_congr_left ?_
    intro i _
    simp [upVals]
  simp only [canonState]
  rw [hB, loop_present B g m (List.range' m (P - m)) c m 0 [] (by omega)]
  dsimp only
  simp only [List.nil_append, List.length_map, List.length_range', Nat.zero_add]
  have hshadow : (List.range m).map (fun i => (i, upVals B g m i)) =
      (List.range m).map (fun i => (i, B i + g i)) := by
    refine List.map_congr_left ?_
    intro i hi
    have hlt : i < m := List.mem_range.mp hi
    simp [upVals]
    omega
  rw [hshadow,
      loop_absent_skip ((List.range m).map (fun i => (i, B i + g i)))
        (List.range' m (P - m)) c (P - m) m ((List.range' 0 m).map (fun i => B i + g i))
        (fun i hi1 _ => hasSlot_rangeMap_ge _ m i hi1)
        (fun i hi1 hi2 => List.mem_range'_1.mpr ⟨hi1, by omega⟩)]
  rw [← List.range_eq_range']

lemma loop_init (m P : ℕ) (hm : m ≤ P) (g : ℕ → ℚ) :
    accumulateLoop initState (patInput m P g) =
      .ok (canonState m P g 0, (List.range m).map g) := by
  rw [accumulateLoop, patInput_eq m P g hm, loopFrom_append]
  have h0 := loop_alloc g [] 0 m 0 []
  simp only [List.range_zero, List.map_nil, List.nil_append, Nat.zero_add] at h0
  simp only [initState]
  rw [h0]
  dsimp only
  simp only [List.length_map, List.length_range', Nat.zero_add]
  rw [loop_absent_grow ((List.range m).map (fun i => (i, g i))) 0 (P - m) m [] _
        (fun i hi1 _ => hasSlot_rangeMap_ge _ m i hi1)
        (fun i _ _ => List.not_mem_nil i)]
  simp only [canonState, List.nil_append]
  rw [← List.range_eq_range']

/-! ### Reconstruction, allreduce and clear lemmas -/

lemma reconstructFrom_rangeMap (reduced : List (Option Grad)) (W : ℕ → ℚ)
    (m : ℕ) (hlen : m ≤ reduced.length) :
    ∀ (k j : ℕ),
      reconstructFrom reduced ((List.range m).map (fun i => (i, W i))) j k =
        .ok ((List.range' j k).map
          (fun idx => if idx < m then reduced.getD idx none else none)) := by
  intro k
  induction k with
  | zero => intro j; simp [reconstructFrom]
  | succ n ih =>
      intro j
      rw [List.range'_succ, List.map_cons]
      by_cases hj : j < m
      · have h1 := hasSlot_rangeMap_lt W m j hj
        have hb : j < reduced.length := by omega
        simp only [reconstructFrom, h1, if_true, List.getElem?_eq_getElem hb]
        rw [ih (j + 1), if_pos hj, List.getD_eq_getElem reduced none hb]
      · have h1 := hasSlot_rangeMap_ge W m j (by omega)
        simp only [reconstructFrom, h1, Bool.false_eq_true, if_false]
        rw [ih (j + 1), if_neg hj]

lemma reconstruct_rangeMap (reduced : List (Option Grad)) (W : ℕ → ℚ)
    (m nN : ℕ) (hlen : reduced.length = m) :
    reconstruct reduced ((List.range m).map (fun i => (i, W i))) nN =
      .ok ((List.range (m + nN)).map
        (fun idx => if idx < m then reduced.getD idx none else none)) := by
  rw [reconstruct, hlen, reconstructFrom_rangeMap reduced W m (by omega) (m + nN) 0,
      ← List.range_eq_range']

lemma allreduce_helper_length (h : Helper) (vals : List ℚ)
    (hR : ∀ l, (h.allreduce_func l).length = l.length) :
    (allreduce_helper h vals).length = vals.length := by
  rw [allreduce_helper]
  dsimp only
  split <;> simp [hR]

lemma clear_vars_rangeMap (m : ℕ) (V : ℕ → ℚ) (no : List ℕ) (c : ℕ) :
    clear_vars ⟨(List.range m).map (fun i => (i, V i)), no, c⟩ =
      ⟨(List.range m).map (fun i => (i, 0)), no, 0⟩ := by
  simp only [clear_vars, List.map_map]
  congr 1
  refine List.map_congr_left ?_
  intro i _
  simp [Function.comp]

/-! ### Characterization of `compute_gradients` on canonical states -/

lemma compute_char_acc (h : Helper) (s : AggState) (grads : List (Option Grad))
    (m P : ℕ) (hm : m ≤ P) (hg : grads.length = P) (V : ℕ → ℚ) (c : ℕ)
    (hloop : accumulateLoop s grads =
      .ok (canonState m P V c, (List.range m).map V))
    (hc : c + 1 ≠ h.aggregation_frequency) :
    compute_gradients h s grads =
      .ok (false, (List.range m).map (fun i => some (Grad.dense (V i))),
           canonState m P V (c + 1)) := by
  rw [compute_gradients, hloop]
  dsimp only
  simp only [canonState, List.length_map, List.length_range, List.length_range', hg]
  rw [if_neg (by omega : ¬(m + (P - m) ≠ P))]
  rw [if_neg hc]
  simp [List.map_map, Function.comp]

lemma compute_char_sync (h : Helper) (s : AggState) (grads : List (Option Grad))
    (m P : ℕ) (hm : m ≤ P) (hg : grads.length = P) (V : ℕ → ℚ) (c : ℕ)
    (hR : ∀ l, (h.allreduce_func l).length = l.length)
    (hloop : accumulateLoop s grads =
      .ok (canonState m P V c, (List.range m).map V))
    (hc : c + 1 = h.aggregation_frequency) :
    compute_gradients h s grads =
      .ok (true,
        (List.range P).map (fun idx =>
          if idx < m then (allreduce_helper h ((List.range m).map V)).getD idx none
          else none),
        canonState m P (fun _ => 0) 0) := by
  have hared : (allreduce_helper h ((List.range m).map V)).length = m := by
    rw [allreduce_helper_length h _ hR]
    simp
  rw [compute_gradients, hloop]
  dsimp only
  simp only [canonState, List.length_map, List.length_range, List.length_range', hg]
  rw [if_neg (by omega : ¬(m + (P - m) ≠ P))]
  rw [if_pos hc]
  rw [if_neg (by simp [hared] : ¬((allreduce_helper h ((List.range m).map V)).length ≠ m))]
  have hrec := reconstruct_rangeMap (allreduce_helper h ((List.range m).map V)) V m
    ((List.range' m (P - m)).length) hared
  simp only [List.length_range'] at hrec
  rw [hrec]
  dsimp only
  rw [if_neg (by simp : ¬(((List.range (m + (P - m))).map (fun idx => if idx < m then (allreduce_helper h ((List.range m).map V)).getD idx none else none)).length ≠ m + (P - m)))]
  rw [clear_vars_rangeMap m V (List.range' m (P - m)) (c + 1)]
  rw [show m + (P - m) = P from by omega]

/-! ### Wrapped helper and misc lemmas -/

/-- A helper whose external allreduce collaborator behaves like the real
collective: it maps a list of dense tensors to dense tensors (`R0` gives
the reduced values). -/
def mkHelper (f : ℕ) (R0 : List ℚ → List ℚ) (sad avg : Bool) : Helper :=
  ⟨f, fun l => (R0 l).map (fun v => some (Grad.dense v)), sad, avg⟩

lemma allreduce_mkHelper (f : ℕ) (R0 : List ℚ → List ℚ) (sad avg : Bool)
    (vals : List ℚ) :
    allreduce_helper (mkHelper f R0 sad avg) vals =
      (R0 vals).map (fun v => some (Grad.dense (v / effDivisor f avg))) := by
  rw [allreduce_helper, mkHelper, effDivisor]
  by_cases hf : 1 < f
  · simp only [hf, if_true, List.map_map]
    rfl
  · simp only [hf, if_false]
    refine (List.map_congr_left ?_).symm
    intro v _
    rw [div_one]

lemma mkHelper_len (f : ℕ) (R0 : List ℚ → List ℚ) (sad avg : Bool)
    (hR0 : ∀ l, (R0 l).length = l.length) :
    ∀ l, ((mkHelper f R0 sad avg).allreduce_func l).length = l.length := by
  intro l
  simp [mkHelper, hR0]

lemma map_getD_range {α : Type} (l : List α) (d : α) :
    (List.range l.length).map (fun i => l.getD i d) = l := by
  induction l with
  | nil => simp
  | cons a t ih =>
      rw [List.length_cons, List.range_succ_eq_map, List.map_cons]
      simp only [List.getD_cons_zero, List.map_map]
      congr 1

lemma canonState_congr (m P : ℕ) (F G : ℕ → ℚ) (c : ℕ)
    (hFG : ∀ i, i < m → F i = G i) :
    canonState m P F c = canonState m P G c := by
  simp only [canonState]
  congr 1
  refine List.map_congr_left ?_
  intro i hi
  rw [hFG i (List.mem_range.mp hi)]

lemma patInput_length (m P : ℕ) (g : ℕ → ℚ) : (patInput m P g).length = P := by
  simp [patInput]

lemma runCalls_nil (h : Helper) (s : AggState) : runCalls h s [] = .ok ([], s) := rfl

lemma runCalls_cons (h : Helper) (s : AggState) (gs : List (Option Grad))
    (rest : List (List (Option Grad))) :
    runCalls h s (gs :: rest) =
      match compute_gradients h s gs with
      | .error e => .error e
      | .ok (sync, out, s1) =>
          match runCalls h s1 rest with
          | .error e => .error e
          | .ok (results, sF) => .ok ((sync, out) :: results, sF) := rfl

lemma runCalls_append (h : Helper) (l1 l2 : List (List (Option Grad))) :
    ∀ (s : AggState),
      runCalls h s (l1 ++ l2) =
        match runCalls h s l1 with
        | .error e => .error e
        | .ok (r1, s1) =>
            match runCalls h s1 l2 with
            | .error e => .error e
            | .ok (r2, s2) => .ok (r1 ++ r2, s2) := by
  induction l1 with
  | nil =>
      intro s
      rw [List.nil_append, runCalls_nil]
      dsimp only
      cases runCalls h s l2 with
      | error e => rfl
      | ok p => rfl
  | cons gs rest ih =>
      intro s
      rw [List.cons_append, runCalls_cons, runCalls_cons]
      cases compute_gradients h s gs with
      | error e => rfl
      | ok p =>
          obtain ⟨sync, out, s1⟩ := p
          dsimp only
          rw [ih s1]
          cases runCalls h s1 rest with
          | error e => rfl
          | ok q =>
              obtain ⟨r1, s2⟩ := q
              dsimp only
              cases runCalls h s2 l2 with
              | error e => rfl
              | ok w => rfl

/-! ### Error and length analysis -/

lemma stepSlot_error_eq (s : AggState) (res : List ℚ) (j : ℕ) (g : Option Grad)
    (e : AggError) (h : stepSlot s res j g = .error e) : e = .unsupportedSparse := by
  match g with
  | none =>
      simp only [stepSlot] at h
      split at h
      · simp at h
      · split at h
        · simp at h
        · simp at h
  | some (Grad.dense v) =>
      simp [stepSlot] at h
  | some (Grad.sparse v) =>
      simp only [stepSlot, Except.error.injEq] at h
      exact h.symm

lemma loopFrom_sparse (v : ℚ) :
    ∀ (grads : List (Option Grad)) (s : AggState) (res : List ℚ) (j : ℕ),
      some (Grad.sparse v) ∈ grads →
      loopFrom s res j grads = .error .unsupportedSparse := by
  intro grads
  induction grads with
  | nil => intro s res j hmem; exact absurd hmem (List.not_mem_nil _)
  | cons g rest ih =>
      intro s res j hmem
      rw [loopFrom_cons]
      rcases List.mem_cons.mp hmem with heq | hmem2
      · subst heq
        rfl
      · cases hstep : stepSlot s res j g with
        | error e =>
            dsimp only
            rw [stepSlot_error_eq s res j g e hstep]
        | ok p =>
            obtain ⟨s1, res1⟩ := p
            dsimp only
            exact ih s1 res1 (j + 1) hmem2

lemma compute_sparse_raises (h : Helper) (s : AggState)
    (grads : List (Option Grad)) (v : ℚ) (hmem : some (Grad.sparse v) ∈ grads) :
    compute_gradients h s grads = .error .unsupportedSparse := by
  have hl : accumulateLoop s grads = .error .unsupportedSparse := by
    rw [accumulateLoop]
    exact loopFrom_sparse v grads s [] 0 hmem
  rw [compute_gradients, hl]

lemma stepSlot_ok_length (s : AggState) (res : List ℚ) (j : ℕ) (g : Option Grad)
    (s1 : AggState) (res1 : List ℚ) (h : stepSlot s res j g = .ok (s1, res1)) :
    res1.length = res.length + (if g.isSome then 1 else 0) := by
  match g with
  | none =>
      simp only [stepSlot] at h
      split at h
      · simp only [Except.ok.injEq, Prod.mk.injEq] at h
        rw [← h.2]
        simp
      · split at h
        · simp only [Except.ok.injEq, Prod.mk.injEq] at h
          rw [← h.2]
          simp
        · simp only [Except.ok.injEq, Prod.mk.injEq] at h
          rw [← h.2]
          simp
  | some (Grad.dense v) =>
      simp only [stepSlot, Except.ok.injEq, Prod.mk.injEq] at h
      rw [← h.2]
      simp
  | some (Grad.sparse v) =>
      simp [stepSlot] at h

lemma loopFrom_length :
    ∀ (grads : List (Option Grad)) (s : AggState) (res : List ℚ) (j : ℕ)
      (s1 : AggState) (res1 : List ℚ),
      loopFrom s res j grads = .ok (s1, res1) →
      res1.length = res.length + grads.countP (fun g => g.isSome) := by
  intro grads
  induction grads with
  | nil =>
      intro s res j s1 res1 h
      rw [loopFrom_nil] at h
      simp only [Except.ok.injEq, Prod.mk.injEq] at h
      rw [← h.2]
      simp
  | cons g rest ih =>
      intro s res j s1 res1 h
      rw [loopFrom_cons] at h
      cases hstep : stepSlot s res j g with
      | error e =>
          rw [hstep] at h
          simp at h
      | ok p =>
          obtain ⟨s2, res2⟩ := p
          rw [hstep] at h
          dsimp only at h
          have h1 := stepSlot_ok_length s res j g s2 res2 hstep
          have h2 := ih s2 res2 (j + 1) s1 res1 h
          rw [List.countP_cons]
          cases hg : g.isSome <;> simp only [hg] at h1 ⊢ <;> simp at h1 ⊢ <;> omega

lemma reconstructFrom_error (reduced : List (Option Grad)) (sv : List (ℕ × ℚ)) :
    ∀ (k j : ℕ) (e : AggError),
      reconstructFrom reduced sv j k = .error e → e = .indexError := by
  intro k
  induction k with
  | zero => intro j e h; simp [reconstructFrom] at h
  | succ n ih =>
      intro j e h
      by_cases hs : hasSlot sv j = true
      · cases hred : reduced[j]? with
        | none =>
            simp only [reconstructFrom, hs, if_true, hred] at h
            exact (Except.error.inj h).symm
        | some v =>
            simp only [reconstructFrom, hs, if_true, hred] at h
            cases hrec : reconstructFrom reduced sv (j + 1) n with
            | error e2 =>
                rw [hrec] at h
                injection h with h2
                rw [← h2]
                exact ih (j + 1) e2 hrec
            | ok rest =>
                rw [hrec] at h
                simp at h
      · simp only [reconstructFrom, hs, if_false] at h
        cases hrec : reconstructFrom reduced sv (j + 1) n with
        | error e2 =>
            rw [hrec] at h
            injection h with h2
            rw [← h2]
            exact ih (j + 1) e2 hrec
        | ok rest =>
            rw [hrec] at h
            simp at h

/-! ### Counter behaviour and full runs -/

lemma compute_counter (h : Helper) (s : AggState) (grads : List (Option Grad))
    (sync : Bool) (out : List (Option Grad)) (s2 : AggState)
    (hc : compute_gradients h s grads = .ok (sync, out, s2)) :
    (sync = true → s2.counter = 0) ∧ (sync = false → s2.counter ≠ 0) := by
  rw [compute_gradients] at hc
  cases hloop : accumulateLoop s grads with
  | error e => rw [hloop] at hc; simp at hc
  | ok p =>
      obtain ⟨s1, res⟩ := p
      rw [hloop] at hc
      dsimp only at hc
      split at hc
      · simp at hc
      · split at hc
        · split at hc
          · simp at hc
          · split at hc
            · simp at hc
            · split at hc
              · simp at hc
              · simp only [Except.ok.injEq, Prod.mk.injEq] at hc
                obtain ⟨h1, _, h3⟩ := hc
                constructor
                · intro _
                  rw [← h3]
                  simp [clear_vars]
                · intro hfalse
                  rw [← h1] at hfalse
                  simp at hfalse
        · simp only [Except.ok.injEq, Prod.mk.injEq] at hc
          obtain ⟨h1, _, h3⟩ := hc
          constructor
          · intro ht
            rw [← h1] at ht
            simp at ht
          · intro _
            rw [← h3]
            simp

lemma run_from_init (h : Helper) (m P : ℕ) (hm : m ≤ P) (gs : ℕ → ℕ → ℚ) :
    ∀ (k : ℕ), (∀ t, t ≤ k → t + 1 ≠ h.aggregation_frequency) →
      runCalls h initState
          ((List.range (k + 1)).map (fun j => patInput m P (gs j))) =
        .ok ((List.range (k + 1)).map (fun j =>
              (false, (List.range m).map (fun i =>
                some (Grad.dense (∑ u ∈ Finset.range (j + 1), gs u i))))),
             canonState m P (fun i => ∑ u ∈ Finset.range (k + 1), gs u i) (k + 1)) := by
  intro k
  induction k with
  | zero =>
      intro hf
      have hcomp := compute_char_acc h initState (patInput m P (gs 0)) m P hm
        (patInput_length m P (gs 0)) (gs 0) 0 (loop_init m P hm (gs 0))
        (hf 0 (le_refl 0))
      have h01 : List.range (0 + 1) = [0] := by decide
      rw [h01]
      simp only [List.map_cons, List.map_nil]
      rw [runCalls_cons, hcomp]
      dsimp only
      rw [runCalls_nil]
      simp [Finset.sum_range_one]
  | succ n ih =>
      intro hf
      rw [List.range_succ, List.map_append, runCalls_append,
          ih (fun t ht => hf t (by omega))]
      dsimp only
      simp only [List.map_cons, List.map_nil]
      have hcomp := compute_char_acc h
        (canonState m P (fun i => ∑ u ∈ Finset.range (n + 1), gs u i) (n + 1))
        (patInput m P (gs (n + 1))) m P hm (patInput_length m P (gs (n + 1)))
        (fun i => (∑ u ∈ Finset.range (n + 1), gs u i) + gs (n + 1) i) (n + 1)
        (loop_canon m P hm (fun i => ∑ u ∈ Finset.range (n + 1), gs u i)
          (gs (n + 1)) (n + 1))
        (hf (n + 1) (le_refl _))
      rw [runCalls_cons, hcomp]
      dsimp only
      rw [runCalls_nil]
      dsimp only
      have hx : (List.range m).map (fun i =>
            some (Grad.dense ((∑ u ∈ Finset.range (n + 1), gs u i) + gs (n + 1) i))) =
          (List.range m).map (fun i =>
            some (Grad.dense (∑ u ∈ Finset.range (n + 1 + 1), gs u i))) := by
        refine List.map_congr_left ?_
        intro i _
        rw [Finset.sum_range_succ (fun u => gs u i) (n + 1)]
      have hst : canonState m P
            (fun i => (∑ u ∈ Finset.range (n + 1), gs u i) + gs (n + 1) i) (n + 1 + 1) =
          canonState m P (fun i => ∑ u ∈ Finset.range (n + 1 + 1), gs u i) (n + 1 + 1) := by
        refine canonState_congr m P _ _ _ ?_
        intro i _
        rw [Finset.sum_range_succ (fun u => gs u i) (n + 1)]
      rw [hx, hst, List.range_succ, List.map_append]
      simp [List.map_append]

lemma syncOut_full (h : Helper) (P : ℕ) (V : ℕ → ℚ)
    (hlen : (allreduce_helper h ((List.range P).map V)).length = P) :
    (List.range P).map (fun idx =>
        if idx < P then (allreduce_helper h ((List.range P).map V)).getD idx none
        else none) =
      allreduce_helper h ((List.range P).map V) := by
  have h1 : (List.range P).map (fun idx =>
      if idx < P then (allreduce_helper h ((List.range P).map V)).getD idx none
      else none) =
      (List.range P).map (fun idx =>
        (allreduce_helper h ((List.range P).map V)).getD idx none) := by
    refine List.map_congr_left ?_
    intro i hi
    rw [if_pos (List.mem_range.mp hi)]
  have h2 := map_getD_range (allreduce_helper h ((List.range P).map V)) none
  rw [hlen] at h2
  rw [h1, h2]

lemma run_pattern_full (k P : ℕ) (R0 : List ℚ → List ℚ)
    (hR0 : ∀ l, (R0 l).length = l.length) (sad avg : Bool) (gs : ℕ → ℕ → ℚ) :
    runCalls (mkHelper (k + 1) R0 sad avg) initState
        ((List.range (k + 1)).map (fun j => patInput P P (gs j))) =
      .ok (((List.range k).map (fun j =>
              (false, (List.range P).map (fun i =>
                some (Grad.dense (∑ u ∈ Finset.range (j + 1), gs u i)))))) ++
            [(true, (R0 ((List.range P).map
                (fun i => ∑ u ∈ Finset.range (k + 1), gs u i))).map
              (fun v => some (Grad.dense (v / effDivisor (k + 1) avg))))],
           canonState P P (fun _ => 0) 0) := by
  have hR := mkHelper_len (k + 1) R0 sad avg hR0
  cases k with
  | zero =>
      have hlen1 : (allreduce_helper (mkHelper (0 + 1) R0 sad avg)
          ((List.range P).map (gs 0))).length = P := by
        rw [allreduce_helper_length _ _ hR]
        simp
      have hcomp := compute_char_sync (mkHelper (0 + 1) R0 sad avg) initState
        (patInput P P (gs 0)) P P (le_refl P) (patInput_length P P (gs 0)) (gs 0) 0
        hR (loop_init P P (le_refl P) (gs 0)) (by simp [mkHelper])
      have h01 : List.range (0 + 1) = [0] := by decide
      rw [h01]
      simp only [List.map_cons, List.map_nil]
      rw [runCalls_cons, hcomp]
      dsimp only
      rw [runCalls_nil]
      dsimp only
      rw [syncOut_full _ P (gs 0) hlen1, allreduce_mkHelper]
      have hvals : (List.range P).map (gs 0) =
          (List.range P).map (fun i => ∑ u ∈ Finset.range (0 + 1), gs u i) := by
        refine List.map_congr_left ?_
        intro i _
        rw [Finset.sum_range_one]
      rw [hvals]
      simp
  | succ n =>
      have hstep1 := run_from_init (mkHelper (n + 1 + 1) R0 sad avg) P P
        (le_refl P) gs n (fun t ht => by simp only [mkHelper]; omega)
      rw [List.range_succ, List.map_append, runCalls_append, hstep1]
      dsimp only
      simp only [List.map_cons, List.map_nil]
      have hcomp := compute_char_sync (mkHelper (n + 1 + 1) R0 sad avg)
        (canonState P P (fun i => ∑ u ∈ Finset.range (n + 1), gs u i) (n + 1))
        (patInput P P (gs (n + 1))) P P (le_refl P)
        (patInput_length P P (gs (n + 1)))
        (fun i => (∑ u ∈ Finset.range (n + 1), gs u i) + gs (n + 1) i) (n + 1)
        hR (loop_canon P P (le_refl P) _ (gs (n + 1)) (n + 1))
        (by simp only [mkHelper])
      rw [runCalls_cons, hcomp]
      dsimp only
      rw [runCalls_nil]
      dsimp only
      have hvals : (List.range P).map
          (fun i => (∑ u ∈ Finset.range (n + 1), gs u i) + gs (n + 1) i) =
          (List.range P).map (fun i => ∑ u ∈ Finset.range (n + 1 + 1), gs u i) := by
        refine List.map_congr_left ?_
        intro i _
        rw [Finset.sum_range_succ (fun u => gs u i) (n + 1)]
      rw [hvals]
      have hlen2 : (allreduce_helper (mkHelper (n + 1 + 1) R0 sad avg)
          ((List.range P).map
            (fun i => ∑ u ∈ Finset.range (n + 1 + 1), gs u i))).length = P := by
        rw [allreduce_helper_length _ _ hR]
        simp
      rw [syncOut_full _ P _ hlen2, allreduce_mkHelper]

lemma getElem?_rangeMap {α : Type} (P i : ℕ) (F : ℕ → α) (hi : i < P) :
    ((List.range P).map F)[i]? = some (F i) := by
  have h1 : i < ((List.range P).map F).length := by simp [hi]
  rw [List.getElem?_eq_getElem h1]
  simp [List.getElem_map, List.getElem_range]

lemma run_canon_inv (h : Helper) (m P : ℕ) (hm : m ≤ P)
    (hR : ∀ l, (h.allreduce_func l).length = l.length) :
    ∀ (calls : List (ℕ → ℚ)) (B : ℕ → ℚ) (c : ℕ)
      (r : List (Bool × List (Option Grad))) (sF : AggState),
      runCalls h (canonState m P B c) (calls.map (fun g => patInput m P g)) =
        .ok (r, sF) →
      (∃ B2 c2, sF = canonState m P B2 c2) ∧
      ∀ q ∈ r,
        (q.1 = true → q.2.length = P ∧
          ∀ k2, m ≤ k2 → k2 < P → q.2[k2]? = some none) ∧
        (q.1 = false → q.2.length = m) := by
  intro calls
  induction calls with
  | nil =>
      intro B c r sF hrun
      rw [List.map_nil, runCalls_nil] at hrun
      simp only [Except.ok.injEq, Prod.mk.injEq] at hrun
      obtain ⟨h1, h2⟩ := hrun
      constructor
      · exact ⟨B, c, h2.symm⟩
      · intro q hq
        rw [← h1] at hq
        exact absurd hq (List.not_mem_nil q)
  | cons g rest ih =>
      intro B c r sF hrun
      rw [List.map_cons, runCalls_cons] at hrun
      by_cases hc : c + 1 = h.aggregation_frequency
      · rw [compute_char_sync h _ _ m P hm (patInput_length m P g) _ c hR
            (loop_canon m P hm B g c) hc] at hrun
        dsimp only at hrun
        cases hrest : runCalls h (canonState m P (fun _ => 0) 0)
            (rest.map (fun g2 => patInput m P g2)) with
        | error e => rw [hrest] at hrun; simp at hrun
        | ok p =>
            obtain ⟨r2, s2⟩ := p
            rw [hrest] at hrun
            dsimp only at hrun
            simp only [Except.ok.injEq, Prod.mk.injEq] at hrun
            obtain ⟨h1, h2⟩ := hrun
            have hih := ih (fun _ => 0) 0 r2 s2 hrest
            constructor
            · rw [← h2]
              exact hih.1
            · intro q hq
              rw [← h1] at hq
              rcases List.mem_cons.mp hq with heq | hq2
              · subst heq
                constructor
                · intro _
                  constructor
                  · simp
                  · intro k2 hk1 hk2
                    rw [getElem?_rangeMap P k2 _ hk2, if_neg (by omega)]
                · intro hfalse
                  simp at hfalse
              · exact hih.2 q hq2
      · rw [compute_char_acc h _ _ m P hm (patInput_length m P g) _ c
            (loop_canon m P hm B g c) hc] at hrun
        dsimp only at hrun
        cases hrest : runCalls h (canonState m P (fun i => B i + g i) (c + 1))
            (rest.map (fun g2 => patInput m P g2)) with
        | error e => rw [hrest] at hrun; simp at hrun
        | ok p =>
            obtain ⟨r2, s2⟩ := p
            rw [hrest] at hrun
            dsimp only at hrun
            simp only [Except.ok.injEq, Prod.mk.injEq] at hrun
            obtain ⟨h1, h2⟩ := hrun
            have hih := ih (fun i => B i + g i) (c + 1) r2 s2 hrest
            constructor
            · rw [← h2]
              exact hih.1
            · intro q hq
              rw [← h1] at hq
              rcases List.mem_cons.mp hq with heq | hq2
              · subst heq
                constructor
                · intro htrue
                  simp at htrue
                · intro _
                  simp
              · exact hih.2 q hq2

lemma run_init_inv (h : Helper) (m P : ℕ) (hm : m ≤ P)
    (hR : ∀ l, (h.allreduce_func l).length = l.length)
    (calls : List (ℕ → ℚ)) (r : List (Bool × List (Option Grad))) (sF : AggState)
    (hrun : runCalls h initState (calls.map (fun g => patInput m P g)) =
      .ok (r, sF)) :
    (sF = initState ∨ ∃ B2 c2, sF = canonState m P B2 c2) ∧
    ∀ q ∈ r,
      (q.1 = true → q.2.length = P ∧
        ∀ k2, m ≤ k2 → k2 < P → q.2[k2]? = some none) ∧
      (q.1 = false → q.2.length = m) := by
  cases calls with
  | nil =>
      rw [List.map_nil, runCalls_nil] at hrun
      simp only [Except.ok.injEq, Prod.mk.injEq] at hrun
      obtain ⟨h1, h2⟩ := hrun
      constructor
      · exact Or.inl h2.symm
      · intro q hq
        rw [← h1] at hq
        exact absurd hq (List.not_mem_nil q)
  | cons g rest =>
      rw [List.map_cons, runCalls_cons] at hrun
      by_cases hc : 0 + 1 = h.aggregation_frequency
      · rw [compute_char_sync h _ _ m P hm (patInput_length m P g) _ 0 hR
            (loop_init m P hm g) hc] at hrun
        dsimp only at hrun
        cases hrest : runCalls h (canonState m P (fun _ => 0) 0)
            (rest.map (fun g2 => patInput m P g2)) with
        | error e => rw [hrest] at hrun; simp at hrun
        | ok p =>
            obtain ⟨r2, s2⟩ := p
            rw [hrest] at hrun
            dsimp only at hrun
            simp only [Except.ok.injEq, Prod.mk.injEq] at hrun
            obtain ⟨h1, h2⟩ := hrun
            have hih := run_canon_inv h m P hm hR rest (fun _ => 0) 0 r2 s2 hrest
            constructor
            · rw [← h2]
              exact Or.inr hih.1
            · intro q hq
              rw [← h1] at hq
              rcases List.mem_cons.mp hq with heq | hq2
              · subst heq
                constructor
                · intro _
                  constructor
                  · simp
                  · intro k2 hk1 hk2
                    rw [getElem?_rangeMap P k2 _ hk2, if_neg (by omega)]
                · intro hfalse
                  simp at hfalse
              · exact hih.2 q hq2
      · rw [compute_char_acc h _ _ m P hm (patInput_length m P g) _ 0
            (loop_init m P hm g) hc] at hrun
        dsimp only at hrun
        cases hrest : runCalls h (canonState m P g (0 + 1))
            (rest.map (fun g2 => patInput m P g2)) with
        | error e => rw [hrest] at hrun; simp at hrun
        | ok p =>
            obtain ⟨r2, s2⟩ := p
            rw [hrest] at hrun
            dsimp only at hrun
            simp only [Except.ok.injEq, Prod.mk.injEq] at hrun
            obtain ⟨h1, h2⟩ := hrun
            have hih := run_canon_inv h m P hm hR rest g (0 + 1) r2 s2 hrest
            constructor
            · rw [← h2]
              exact Or.inr hih.1
            · intro q hq
              rw [← h1] at hq
              rcases List.mem_cons.mp hq with heq | hq2
              · subst heq
                constructor
                · intro htrue
                  simp at htrue
                · intro _
                  simp
              · exact hih.2 q hq2

/-! ### Claim theorems -/

/-- Claim C1 (code-bug evidence): the claim says that with
`aggregationFrequency = f > 1`, over `f` consecutive calls with identical
gradient-presence patterns, the `f`-th call reports a synchronization and
resets the buffers and counter.  Evaluating the code at `f = 2` with the
fixed pattern "slot 0 absent, slot 1 present" (gradient `1.0` both calls,
identity allreduce) shows the second call instead raises the Python
`IndexError`: the reconstruction comprehension indexes the compacted
reduced list `resulting_grads` (length 1) by the absolute slot index `1`
(`resulting_grads[idx] if idx in self.shadow_var`). -/
theorem claim1_eval :
    runCalls (mkHelper 2 (fun l => l) false false) initState
        [[none, some (Grad.dense 1)], [none, some (Grad.dense 1)]] =
      .error .indexError := by
  norm_num [runCalls, compute_gradients, accumulateLoop, loopFrom, stepSlot,
    hasSlot, lookupSlot, addToSlot, allreduce_helper, clear_vars, reconstruct,
    reconstructFrom, mkHelper, initState, List.contains]

/-- Claim C3: with `aggregationFrequency = 3`, two parameters, gradient
inputs `[1, 10]`, `[2, 20]`, `[3, 30]` over three consecutive calls,
`averageAggregatedGradients = true` and the identity external reduce, the
first two calls report no synchronization, the third reports
synchronization with output `[2, 20]` (`(1+2+3)/3` and `(10+20+30)/3`), and
both buffers are `0` afterward (final state: buffers `[(0,0),(1,0)]`,
counter `0`). -/
theorem claim3_example_run :
    runCalls (mkHelper 3 (fun l => l) false true) initState
        [[some (Grad.dense 1), some (Grad.dense 10)],
         [some (Grad.dense 2), some (Grad.dense 20)],
         [some (Grad.dense 3), some (Grad.dense 30)]] =
      .ok ([(false, [some (Grad.dense 1), some (Grad.dense 10)]),
            (false, [some (Grad.dense 3), some (Grad.dense 30)]),
            (true, [some (Grad.dense 2), some (Grad.dense 20)])],
           ⟨[(0, 0), (1, 0)], [], 0⟩) := by
  norm_num [runCalls, compute_gradients, accumulateLoop, loopFrom, stepSlot,
    hasSlot, lookupSlot, addToSlot, allreduce_helper, clear_vars, reconstruct,
    reconstructFrom, mkHelper, initState, List.contains]

/-- Claim C4, counterexample: slot 0 reports "absent" on every call of the
run (here one call, `aggregationFrequency = 2`), yet the call's output list
is the compacted `[g₁]` — it has length 1, not `P = 2`, and position 0
holds slot 1's accumulated value rather than "absent".  This refutes
"every accumulate call returns an output list in which position k is
absent". -/
theorem claim4_cex :
    compute_gradients (mkHelper 2 (fun l => l) false false) initState
        [none, some (Grad.dense 1)] =
      .ok (false, [some (Grad.dense 1)], ⟨[(1, 1)], [0], 1⟩) ∧
    [some (Grad.dense (1 : ℚ))][0]? ≠ some none := by
  constructor
  · norm_num [compute_gradients, accumulateLoop, loopFrom, stepSlot,
      hasSlot, lookupSlot, addToSlot, mkHelper, initState, List.contains]
  · decide

/-- Claim C4, amended: in a run with a fixed gradient-presence pattern
whose present slots `0, …, m-1` all precede the always-absent slots
`m, …, P-1` (slot `k` among the latter), slot `k` never has a buffer
allocated (the final state of every such run — hence, runs being cut off
anywhere, every intermediate state — has no `shadow_var` entry for `k`,
so the external reduce, which receives exactly the buffered slots' values,
never receives an entry for `k`); every synchronizing call returns a
length-`P` output with "absent" at position `k`; every non-synchronizing
call returns the compacted list of the `m` present slots' accumulated
values, with no entry at position `k` at all. -/
theorem claim4_absent_slot (f m P k : ℕ) (hm : m ≤ P) (hk1 : m ≤ k)
    (hk2 : k < P) (R0 : List ℚ → List ℚ)
    (hR0 : ∀ l, (R0 l).length = l.length) (sad avg : Bool)
    (calls : List (ℕ → ℚ)) (r : List (Bool × List (Option Grad)))
    (sF : AggState)
    (hrun : runCalls (mkHelper f R0 sad avg) initState
        (calls.map (fun g => patInput m P g)) = .ok (r, sF)) :
    hasSlot sF.shadow_var k = false ∧
    ∀ q ∈ r,
      (q.1 = true → q.2.length = P ∧ q.2[k]? = some none) ∧
      (q.1 = false → q.2.length = m ∧ q.2[k]? = none) := by
  have hR := mkHelper_len f R0 sad avg hR0
  have hinv := run_init_inv (mkHelper f R0 sad avg) m P hm hR calls r sF hrun
  constructor
  · rcases hinv.1 with hin | ⟨B2, c2, hcan⟩
    · rw [hin]
      rfl
    · rw [hcan]
      simp only [canonState]
      exact hasSlot_rangeMap_ge B2 m k hk1
  · intro q hq
    have hq2 := hinv.2 q hq
    constructor
    · intro ht
      obtain ⟨hlen, habs⟩ := hq2.1 ht
      exact ⟨hlen, habs k hk1 hk2⟩
    · intro hfls
      have hlen := hq2.2 hfls
      refine ⟨hlen, ?_⟩
      exact List.getElem?_eq_none (by omega)

/-- Claim C4, witness: the amended theorem applied to the one-call run of
`claim4_cex` (`m = 1`, `P = 2`, `k = 1`, `aggregationFrequency = 2`). -/
theorem claim4_witness :
    hasSlot (AggState.mk [(0, 1)] [1] 1).shadow_var 1 = false ∧
    ∀ q ∈ [((false : Bool), [some (Grad.dense (1 : ℚ))])],
      (q.1 = true → q.2.length = 2 ∧ q.2[1]? = some none) ∧
      (q.1 = false → q.2.length = 1 ∧ q.2[1]? = none) :=
  claim4_absent_slot 2 1 2 1 (by norm_num) (by norm_num) (by norm_num)
    (fun l => l) (fun l => rfl) false false [fun _ => 1]
    [((false : Bool), [some (Grad.dense 1)])] (AggState.mk [(0, 1)] [1] 1)
    (by norm_num [runCalls, compute_gradients, accumulateLoop, loopFrom,
      stepSlot, hasSlot, lookupSlot, addToSlot, mkHelper, initState,
      List.contains, patInput, List.range_succ])

/-- Claim C5, counterexample: with `aggregationFrequency = 2` and the
single-position input `[absent]` (`P = 1`), the call does not fail and
returns the empty output list, of length `0 ≠ 1`: a non-synchronizing call
does not return one entry per input position. -/
theorem claim5_cex :
    compute_gradients (mkHelper 2 (fun l => l) false false) initState [none] =
      .ok (false, [], ⟨[], [0], 1⟩) ∧
    ([] : List (Option Grad)).length ≠
      ([none] : List (Option Grad)).length := by
  constructor
  · norm_num [compute_gradients, accumulateLoop, loopFrom, stepSlot,
      hasSlot, lookupSlot, addToSlot, mkHelper, initState, List.contains]
  · decide

/-- Claim C5, amended: a successful `compute_gradients` call returns an
output of length `P` (the input length) on synchronizing calls, and the
compacted list with exactly one entry per *present* input position on
non-synchronizing calls. -/
theorem claim5_output_length (h : Helper) (s : AggState)
    (grads : List (Option Grad)) (sync : Bool) (out : List (Option Grad))
    (s2 : AggState)
    (hc : compute_gradients h s grads = .ok (sync, out, s2)) :
    (sync = true → out.length = grads.length) ∧
    (sync = false → out.length = grads.countP (fun g => g.isSome)) := by
  rw [compute_gradients] at hc
  cases hloop : accumulateLoop s grads with
  | error e => rw [hloop] at hc; simp at hc
  | ok p =>
      obtain ⟨s1, res⟩ := p
      rw [hloop] at hc
      dsimp only at hc
      split at hc
      · simp at hc
      · rename_i hInv
        split at hc
        · split at hc
          · simp at hc
          · cases hrec : reconstruct (allreduce_helper h res) s1.shadow_var
                s1.none_slots.length with
            | error e2 => rw [hrec] at hc; simp at hc
            | ok out0 =>
                rw [hrec] at hc
                dsimp only at hc
                split at hc
                · simp at hc
                · rename_i hlenOK
                  simp only [Except.ok.injEq, Prod.mk.injEq] at hc
                  obtain ⟨hs, ho, _⟩ := hc
                  constructor
                  · intro _
                    rw [← ho]
                    omega
                  · intro hfalse
                    rw [← hs] at hfalse
                    simp at hfalse
        · simp only [Except.ok.injEq, Prod.mk.injEq] at hc
          obtain ⟨hs, ho, _⟩ := hc
          constructor
          · intro ht
            rw [← hs] at ht
            simp at ht
          · intro _
            rw [← ho]
            simp only [List.length_map]
            have hlen := loopFrom_length grads s [] 0 s1 res hloop
            simpa using hlen

/-- Claim C5, witness: the amended theorem applied to the call of
`claim5_cex` (non-synchronizing branch: the output length equals the
number of present inputs, here `0`). -/
theorem claim5_witness :
    ((false : Bool) = true →
      ([] : List (Option Grad)).length = [(none : Option Grad)].length) ∧
    ((false : Bool) = false →
      ([] : List (Option Grad)).length =
        [(none : Option Grad)].countP (fun g => g.isSome)) :=
  claim5_output_length (mkHelper 2 (fun l => l) false false) initState [none]
    false [] ⟨[], [0], 1⟩
    (by norm_num [compute_gradients, accumulateLoop, loopFrom, stepSlot,
      hasSlot, lookupSlot, addToSlot, mkHelper, initState, List.contains])

/-- Claim C2: over `f` consecutive all-present calls from a fresh helper
(slot `i` receiving `gs 0 i, …, gs (f-1) i` in call order), the value fed
into the external reduce at the boundary is exactly the list of per-slot
sums `∑ u < f, gs u i` (the reduce `R0` is applied literally to that list
in the result), and the finally returned value for each slot is
`reduce(sum) / f` when `averageAggregatedGradients` is true and `f > 1`
(first conjunct), and `reduce(sum)` unscaled when it is false (second
conjunct).  The first `f - 1` calls report no synchronization and return
the running partial sums. -/
theorem claim2_sum_avg_laws (f P : ℕ) (hf : 0 < f) (sad : Bool)
    (R0 : List ℚ → List ℚ) (hR0 : ∀ l, (R0 l).length = l.length)
    (gs : ℕ → ℕ → ℚ) :
    (1 < f →
      runCalls (mkHelper f R0 sad true) initState
          ((List.range f).map (fun j => patInput P P (gs j))) =
        .ok (((List.range (f - 1)).map (fun j =>
                (false, (List.range P).map (fun i =>
                  some (Grad.dense (∑ u ∈ Finset.range (j + 1), gs u i)))))) ++
              [(true, (R0 ((List.range P).map
                  (fun i => ∑ u ∈ Finset.range f, gs u i))).map
                (fun v => some (Grad.dense (v / (f : ℚ)))))],
             canonState P P (fun _ => 0) 0)) ∧
    (runCalls (mkHelper f R0 sad false) initState
          ((List.range f).map (fun j => patInput P P (gs j))) =
        .ok (((List.range (f - 1)).map (fun j =>
                (false, (List.range P).map (fun i =>
                  some (Grad.dense (∑ u ∈ Finset.range (j + 1), gs u i)))))) ++
              [(true, (R0 ((List.range P).map
                  (fun i => ∑ u ∈ Finset.range f, gs u i))).map
                (fun v => some (Grad.dense v)))],
             canonState P P (fun _ => 0) 0)) := by
  obtain ⟨k, rfl⟩ : ∃ k, f = k + 1 := ⟨f - 1, by omega⟩
  constructor
  · intro hf1
    have hfull := run_pattern_full k P R0 hR0 sad true gs
    have hdiv : effDivisor (k + 1) true = ((k + 1 : ℕ) : ℚ) := by
      simp [effDivisor, hf1]
    rw [hdiv] at hfull
    simpa [Nat.add_sub_cancel] using hfull
  · have hfull := run_pattern_full k P R0 hR0 sad false gs
    have hdiv : (fun v : ℚ => some (Grad.dense (v / effDivisor (k + 1) false))) =
        (fun v : ℚ => some (Grad.dense v)) := by
      funext v
      simp [effDivisor]
    rw [hdiv] at hfull
    simpa [Nat.add_sub_cancel] using hfull

/-- Claim C2, witness: `f = 2`, one parameter, both gradients `1`,
averaging on, identity reduce: the boundary output is `(1 + 1) / 2 = 1`. -/
theorem claim2_witness :
    runCalls (mkHelper 2 (fun l => l) false true) initState
        ((List.range 2).map (fun j => patInput 1 1 (fun _ => (1 : ℚ)))) =
      .ok ([(false, [some (Grad.dense 1)]), (true, [some (Grad.dense 1)])],
           canonState 1 1 (fun _ => 0) 0) := by
  have hth := (claim2_sum_avg_laws 2 1 (by norm_num) false (fun l => l)
      (fun l => rfl) (fun _ _ => (1 : ℚ))).1 (by norm_num)
  rw [hth]
  norm_num [List.range_succ, Finset.sum_range_succ, Finset.sum_range_zero]

/-- Claim C6: with `aggregationFrequency = 1`, every call from a cleared
state (the fresh state, or the state left behind by a previous
synchronization: zeroed buffers, counter `0` — the conclusion's final state
is again of this shape, so this covers every call of a run) synchronizes
immediately, and the output is the external reduce applied directly to the
call's input gradients, with no scaling. -/
theorem claim6_freq_one (P : ℕ) (R0 : List ℚ → List ℚ)
    (hR0 : ∀ l, (R0 l).length = l.length) (sad avg : Bool) (s : AggState)
    (hs : s = initState ∨ s = canonState P P (fun _ => 0) 0) (g : ℕ → ℚ) :
    compute_gradients (mkHelper 1 R0 sad avg) s (patInput P P g) =
      .ok (true,
           (R0 ((List.range P).map g)).map (fun v => some (Grad.dense v)),
           canonState P P (fun _ => 0) 0) := by
  have hR := mkHelper_len 1 R0 sad avg hR0
  have hloop : accumulateLoop s (patInput P P g) =
      .ok (canonState P P g 0, (List.range P).map g) := by
    rcases hs with h1 | h2
    · rw [h1]
      exact loop_init P P (le_refl P) g
    · rw [h2]
      have hl := loop_canon P P (le_refl P) (fun _ => 0) g 0
      simpa using hl
  have hcomp := compute_char_sync (mkHelper 1 R0 sad avg) s (patInput P P g)
    P P (le_refl P) (patInput_length P P g) g 0 hR hloop (by simp [mkHelper])
  rw [hcomp]
  have hlen1 : (allreduce_helper (mkHelper 1 R0 sad avg)
      ((List.range P).map g)).length = P := by
    rw [allreduce_helper_length _ _ hR]
    simp
  rw [syncOut_full _ P g hlen1, allreduce_mkHelper]
  have hdiv : (fun v : ℚ => some (Grad.dense (v / effDivisor 1 avg))) =
      (fun v : ℚ => some (Grad.dense v)) := by
    funext v
    simp [effDivisor]
  rw [hdiv]

/-- Claim C6, witness: a single call at `aggregationFrequency = 1` from the
fresh state with gradient `5` synchronizes and returns the identity reduce
of `[5]` unscaled. -/
theorem claim6_witness :
    compute_gradients (mkHelper 1 (fun l => l) false true) initState
        (patInput 1 1 (fun _ => (5 : ℚ))) =
      .ok (true,
           ((fun l : List ℚ => l) ((List.range 1).map (fun _ => (5 : ℚ)))).map
             (fun v => some (Grad.dense v)),
           canonState 1 1 (fun _ => 0) 0) :=
  claim6_freq_one 1 (fun l => l) (fun l => rfl) false true initState
    (Or.inl rfl) (fun _ => (5 : ℚ))

/-- Claim C7: after any successful `compute_gradients` call, the apply gate
(`apply_gradients`, a `tf.cond` on `counter == 0` in both TensorFlow code
paths) runs exactly one of its two closures and returns that closure's
result: the apply closure precisely when the call synchronized, the
iteration-increment closure otherwise; for a fixed synchronization outcome
the chosen closure is determined (the gate equals the conditional on the
sync flag). -/
theorem claim7_apply_gate {α : Type} (h : Helper) (s : AggState)
    (grads : List (Option Grad)) (preTF240 : Bool)
    (apply_grads_closure increment_fn : Unit → α) (sync : Bool)
    (out : List (Option Grad)) (s2 : AggState)
    (hc : compute_gradients h s grads = .ok (sync, out, s2)) :
    apply_gradients s2.counter preTF240 apply_grads_closure increment_fn =
      (if sync then apply_grads_closure () else increment_fn ()) := by
  have hcnt := compute_counter h s grads sync out s2 hc
  cases sync with
  | true =>
      have h0 : s2.counter = 0 := hcnt.1 rfl
      rw [h0]
      cases preTF240 <;> simp [apply_gradients, tf_cond]
  | false =>
      have h0 : s2.counter ≠ 0 := hcnt.2 rfl
      have hbeq : (s2.counter == 0) = false := by
        rw [beq_eq_false_iff_ne]
        exact h0
      cases preTF240 <;> simp [apply_gradients, tf_cond, hbeq]

/-- Claim C7, witness: a synchronizing call (`aggregationFrequency = 1`)
followed by the gate on the pre-2.4 path runs the apply closure. -/
theorem claim7_witness :
    apply_gradients (AggState.mk [(0, 0)] [] 0).counter true
        (fun _ => (10 : ℕ)) (fun _ => 20) =
      (if true then (10 : ℕ) else 20) :=
  claim7_apply_gate (mkHelper 1 (fun l => l) false false) initState
    [some (Grad.dense 1)] true (fun _ => 10) (fun _ => 20) true
    [some (Grad.dense 1)] (AggState.mk [(0, 0)] [] 0)
    (by norm_num [compute_gradients, accumulateLoop, loopFrom, stepSlot,
      hasSlot, lookupSlot, addToSlot, allreduce_helper, clear_vars,
      reconstruct, reconstructFrom, mkHelper, initState, List.contains])

/-- Claim C8: an input containing a sparse (`tf.IndexedSlices`) gradient
makes the call fail with the sparse-gradient `AssertionError` on that very
call, when `sparse_as_dense` is false, for every helper configuration
(in particular every aggregation frequency). -/
theorem claim8_sparse_rejected (h : Helper) (s : AggState)
    (grads : List (Option Grad)) (v : ℚ) (hsad : h.sparse_as_dense = false)
    (hmem : some (Grad.sparse v) ∈ grads) :
    compute_gradients h s grads = .error .unsupportedSparse :=
  compute_sparse_raises h s grads v hmem

/-- Claim C8, witness. -/
theorem claim8_witness :
    (mkHelper 2 (fun l => l) false false).sparse_as_dense = false ∧
    some (Grad.sparse (1 : ℚ)) ∈ [some (Grad.sparse (1 : ℚ))] ∧
    compute_gradients (mkHelper 2 (fun l => l) false false) initState
        [some (Grad.sparse 1)] = .error .unsupportedSparse :=
  ⟨rfl, by simp,
    claim8_sparse_rejected (mkHelper 2 (fun l => l) false false) initState
      [some (Grad.sparse 1)] 1 rfl (by simp)⟩

/-- Claim C9: when the gradient-processing loop completes (no sparse
gradient aborted it), `compute_gradients` fails with the accumulation
invariant violation exactly when, after all positions are processed, the
number of allocated buffers plus the none-gradient count differs from the
number of input positions. -/
theorem claim9_invariant_check (h : Helper) (s : AggState)
    (grads : List (Option Grad)) (s1 : AggState) (res : List ℚ)
    (hloop : accumulateLoop s grads = .ok (s1, res)) :
    (compute_gradients h s grads = .error .invariantViolated ↔
      s1.shadow_var.length + s1.none_slots.length ≠ grads.length) := by
  rw [compute_gradients, hloop]
  dsimp only
  by_cases hInv : s1.shadow_var.length + s1.none_slots.length ≠ grads.length
  · rw [if_pos hInv]
    simp [hInv]
  · rw [if_neg hInv]
    constructor
    · intro heq
      exfalso
      by_cases hfreq : s1.counter + 1 = h.aggregation_frequency
      · rw [if_pos hfreq] at heq
        split at heq
        · simp at heq
        · cases hrec : reconstruct (allreduce_helper h res) s1.shadow_var
              s1.none_slots.length with
          | error e2 =>
              rw [hrec] at heq
              dsimp only at heq
              injection heq with h2
              have h3 : e2 = .indexError := by
                rw [reconstruct] at hrec
                exact reconstructFrom_error (allreduce_helper h res)
                  s1.shadow_var _ 0 e2 hrec
              rw [h2] at h3
              simp at h3
          | ok out0 =>
              rw [hrec] at heq
              dsimp only at heq
              split at heq
              · simp at heq
              · simp at heq
      · rw [if_neg hfreq] at heq
        simp at heq
    · intro hcontra
      exact absurd hcontra hInv

/-- Claim C9, witness: from a state where slot 0 was classified "no
gradient" (one earlier absent call), a present gradient for slot 0
allocates a buffer, so buffers (1) + none count (1) ≠ positions (1) and
the call fails with the invariant violation. -/
theorem claim9_witness :
    (accumulateLoop ⟨[(0, 5)], [0], 0⟩ [some (Grad.dense 1)] =
      .ok (⟨[(0, 6)], [0], 0⟩, [6])) ∧
    (compute_gradients (mkHelper 2 (fun l => l) false false)
        ⟨[(0, 5)], [0], 0⟩ [some (Grad.dense 1)] = .error .invariantViolated ↔
      (AggState.mk [(0, 6)] [0] 0).shadow_var.length +
        (AggState.mk [(0, 6)] [0] 0).none_slots.length ≠
          [some (Grad.dense (1 : ℚ))].length) := by
  constructor
  · norm_num [accumulateLoop, loopFrom, stepSlot, hasSlot, lookupSlot,
      addToSlot]
  · exact claim9_invariant_check (mkHelper 2 (fun l => l) false false)
      ⟨[(0, 5)], [0], 0⟩ [some (Grad.dense 1)] ⟨[(0, 6)], [0], 0⟩ [6]
      (by norm_num [accumulateLoop, loopFrom, stepSlot, hasSlot, lookupSlot,
        addToSlot])

/-- Claim C10: the sparse-gradient rejection in `compute_gradients` never
consults the stored `sparse_as_dense` flag (the `isinstance(grad,
tf.IndexedSlices)` check raises unconditionally), so a sparse gradient is
rejected even when `sparse_as_dense` is true. -/
theorem claim10_sparse_rejected_flag_true (h : Helper) (s : AggState)
    (grads : List (Option Grad)) (v : ℚ) (hsad : h.sparse_as_dense = true)
    (hmem : some (Grad.sparse v) ∈ grads) :
    compute_gradients h s grads = .error .unsupportedSparse :=
  compute_sparse_raises h s grads v hmem

/-- Claim C10, witness. -/
theorem claim10_witness :
    (mkHelper 3 (fun l => l) true true).sparse_as_dense = true ∧
    some (Grad.sparse (2 : ℚ)) ∈ [some (Grad.dense 7), some (Grad.sparse (2 : ℚ))] ∧
    compute_gradients (mkHelper 3 (fun l => l) true true) initState
        [some (Grad.dense 7), some (Grad.sparse 2)] = .error .unsupportedSparse :=
  ⟨rfl, by simp,
    claim10_sparse_rejected_flag_true (mkHelper 3 (fun l => l) true true)
      initState [some (Grad.dense 7), some (Grad.sparse 2)] 2 rfl (by simp)⟩
